import Mathlib

/-!
# Shallow embedding of the Shrdlite interpreter and planner core

This file embeds, in Lean 4, the data model and the operations of the
blocks-world interpreter (`Interpreter` module) and planner (`Planner`
module) of the course project, and proves properties of them.

Conventions used throughout the embedding:
* TypeScript `null`/`undefined` string fields become `Option String`;
  where the source compares a possibly-`null` variable against object
  keys drawn from the world, the empty string `""` (which is never an
  object key and never occurs in a stack) stands for `null`.
* JavaScript arrays become `List`s; out-of-range indexing, which yields
  `undefined` (falsy) in the source, is modelled with `Option`-returning
  or defaulted lookups as noted at each definition.
* Functions that `throw` become `Except String` computations.
-/

namespace Shrdlite

/-- An entry of the world's object table: `form`, `size` and `color`
(the source's `ObjectDefinition`). -/
structure WObject where
  form : String
  size : String
  color : String
deriving DecidableEq, Repr

/-- The `WorldState` record: `stacks` (bottom-to-top lists of object keys,
one per column), the held object, the arm column, and the object table.
The table is an association list, preserving the source's key-iteration
order; the unused `examples` field is omitted. -/
structure WorldState where
  «stacks» : List (List String)
  holding : Option String
  arm : Nat
  objects : List (String × WObject)
deriving DecidableEq, Repr

/-- `Interpreter.Literal`: polarity, relation name, argument keys. -/
structure Literal where
  polarity : Bool
  relation : String
  args : List String
deriving DecidableEq, Repr

/-- A `Conjunction` is a list of literals (source: `type Conjunction = Literal[]`). -/
abbrev Conjunction := List Literal

/-- A `DNFFormula` is a list of conjunctions (source: `type DNFFormula = Conjunction[]`). -/
abbrev DNFFormula := List Conjunction

/-- The resolver-internal `ObjectRelations` triple
`(targetObject, relation, locationObject)`; `locationObject` is `null`able. -/
structure ObjectRelations where
  targetObject : String
  relation : String
  locationObject : Option String
deriving DecidableEq, Repr

/-- Stand-in for a JS `null` string when the source feeds a possibly-`null`
variable to a predicate expecting a key: `""` is never a key and never
occurs in a stack, so every comparison against it is false, as with `null`. -/
def orNull (o : Option String) : String := o.getD ""

/-- `Interpreter.getObjectSize`: scan the object table for the key and
return its size; `null` (here `none`) if absent.  Note: no special case
for `"floor"`. -/
def getObjectSize (objectKey : String) (state : WorldState) : Option String :=
  (state.objects.find? (fun p => p.1 == objectKey)).map (fun p => p.2.size)

/-- `Interpreter.getObjectForm`: `"floor"` maps to form `"floor"`;
otherwise scan the object table; `null` (here `none`) if absent. -/
def getObjectForm (objectKey : String) (state : WorldState) : Option String :=
  if objectKey == "floor" then some "floor"
  else (state.objects.find? (fun p => p.1 == objectKey)).map (fun p => p.2.form)

/-- `Interpreter.doesObjectExist`: the key is held, or occurs in some stack. -/
def doesObjectExist (holding : Option String) («stacks» : List (List String))
    (searchedObject : String) : Bool :=
  holding == some searchedObject || «stacks».any (fun stack => stack.any (· == searchedObject))

/-- The scanning loop shared (textually) by `isBeside`, `isLeftOf` and
`isRightOf` in the source: walk the stacks with their index; in each stack
find the first element equal to either argument and record the stack index
for that argument (the inner loop `break`s at the first hit, so at most one
of the two registers is updated per stack); registers start at `-10`. -/
def stackNrPairScan («stacks» : List (List String)) (firstObject secondObject : String)
    (i : Int) (acc : Int × Int) : Int × Int :=
  match «stacks» with
  | [] => acc
  | stack :: rest =>
    let acc' :=
      match stack.find? (fun o => o == firstObject || o == secondObject) with
      | some o => if o == firstObject then (i, acc.2) else (acc.1, i)
      | none => acc
    stackNrPairScan rest firstObject secondObject (i + 1) acc'

/-- `Interpreter.isBeside`: `Math.abs(secondNr - firstNr) == 1` after the scan. -/
def isBeside («stacks» : List (List String)) (firstObject secondObject : String) : Bool :=
  let p := stackNrPairScan «stacks» firstObject secondObject 0 (-10, -10)
  (p.2 - p.1).natAbs == 1

/-- `Interpreter.isLeftOf`: both registers set and `secondNr - leftNr > 0`. -/
def isLeftOf («stacks» : List (List String)) (leftObject secondObject : String) : Bool :=
  let p := stackNrPairScan «stacks» leftObject secondObject 0 (-10, -10)
  p.2 != -10 && p.1 != -10 && p.2 - p.1 > 0

/-- `Interpreter.isRightOf`: both registers set and `rightNr - secondNr > 0`. -/
def isRightOf («stacks» : List (List String)) (rightObject secondObject : String) : Bool :=
  let p := stackNrPairScan «stacks» rightObject secondObject 0 (-10, -10)
  p.2 != -10 && p.1 != -10 && p.1 - p.2 > 0

/-- Loop body of `Interpreter.isInside`: once the container has been seen,
the very next element decides; the `found` flag is consulted before it is
set, exactly as in the source. -/
def isInsideAux (stack : List String) (objectInside objectBelow : String)
    (found : Bool) : Bool :=
  match stack with
  | [] => false
  | x :: rest =>
    if found then x == objectInside
    else isInsideAux rest objectInside objectBelow (x == objectBelow)

/-- `Interpreter.isInside`: nothing can be inside a table; otherwise `item`
must immediately follow `container` (first occurrence) in the stack. -/
def isInside (stack : List String) (objectInside objectBelow : String)
    (state : WorldState) : Bool :=
  if getObjectForm objectBelow state == some "table" then false
  else isInsideAux stack objectInside objectBelow false

/-- Loop body of `Interpreter.isAbove`: returns true at any element equal to
`objectAbove` once `objectUnder` has been seen, and also at any element equal
to `objectAbove` when `objectUnder` is the floor. -/
def isAboveAux (stack : List String) (objectAbove objectUnder : String)
    (found : Bool) : Bool :=
  match stack with
  | [] => false
  | x :: rest =>
    if found && x == objectAbove then true
    else
      let found' := found || x == objectUnder
      if objectUnder == "floor" && x == objectAbove then true
      else isAboveAux rest objectAbove objectUnder found'

/-- `Interpreter.isAbove`: the object above cannot have form floor. -/
def isAbove (stack : List String) (objectAbove objectUnder : String)
    (state : WorldState) : Bool :=
  if getObjectForm objectAbove state == some "floor" then false
  else isAboveAux stack objectAbove objectUnder false

/-- Loop body of `Interpreter.isUnder`: like `isAboveAux` without the floor rule. -/
def isUnderAux (stack : List String) (objectAbove objectUnder : String)
    (found : Bool) : Bool :=
  match stack with
  | [] => false
  | x :: rest =>
    if found && x == objectAbove then true
    else isUnderAux rest objectAbove objectUnder (found || x == objectUnder)

/-- `Interpreter.isUnder`: neither argument's form may be floor. -/
def isUnder (stack : List String) (objectUnder objectAbove : String)
    (state : WorldState) : Bool :=
  if getObjectForm objectAbove state == some "floor" then false
  else if getObjectForm objectUnder state == some "floor" then false
  else isUnderAux stack objectAbove objectUnder false

/-- Loop body of `Interpreter.isOnTop`, carrying the element index: once the
object below has been seen, the very next element decides; additionally,
when the object below is `"floor"`, an element equal to `objectOnTop` at
index 0 answers true.  The per-iteration order matches the source: the
`found` test precedes setting `found`, which precedes the floor test. -/
def isOnTopAux (stack : List String) (objectOnTop objectBelow : String)
    (idx : Nat) (found : Bool) : Bool :=
  match stack with
  | [] => false
  | x :: rest =>
    if found then x == objectOnTop
    else
      let found' := x == objectBelow
      if objectBelow == "floor" && x == objectOnTop && idx == 0 then true
      else isOnTopAux rest objectOnTop objectBelow (idx + 1) found'

/-- `Interpreter.isOnTop`: the floor cannot be on top of anything; otherwise
run the scan. -/
def isOnTop (stack : List String) (objectOnTop objectBelow : String)
    (state : WorldState) : Bool :=
  if getObjectForm objectOnTop state == some "floor" then false
  else isOnTopAux stack objectOnTop objectBelow 0 false

/-- `Interpreter.isMoveValid`: the physical rule table, an `else if` chain
whose second branch contains an inner `if` that falls through to the final
`return true` when its size condition fails. -/
def isMoveValid (objectToMove relation targetObject : String)
    (state : WorldState) : Bool :=
  if relation == "inside"
      && (getObjectSize objectToMove state == some "large"
          && getObjectSize targetObject state == some "small")
      && getObjectForm targetObject state == some "box" then
    false
  else if (relation == "inside" || relation == "ontop")
      && (getObjectForm objectToMove state == some "box"
          || getObjectForm objectToMove state == some "plank"
          || getObjectForm objectToMove state == some "pyramid")
      && getObjectForm targetObject state == some "box" then
    if getObjectSize objectToMove state == some "large"
        || getObjectSize targetObject state == some "small" then false
    else true
  else if (relation == "inside" || relation == "ontop")
      && getObjectForm objectToMove state == some "box"
      && (getObjectForm targetObject state == some "brick"
          || getObjectForm targetObject state == some "pyramid") then
    false
  else if relation == "ontop" && getObjectForm objectToMove state == some "ball"
      && !(getObjectForm targetObject state == some "floor") then
    false
  else if targetObject == objectToMove then
    false
  else
    true

mutual
/-- `Parser.Object`: either a simple description (a form filter, plus
optional size and color filters where `null` matches anything and
`"anyform"` matches any form), or a description qualified by a location
(the source's `{object, location}` variant). -/
inductive PObject where
  | base (form : String) (size : Option String) (color : Option String) : PObject
  | nested (obj : PObject) (loc : PLocation) : PObject

/-- `Parser.Location`: a relation name and an entity. -/
inductive PLocation where
  | mk (relation : String) (entity : PEntity) : PLocation

/-- `Parser.Entity`: a quantifier (never read by the interpreter) and an object. -/
inductive PEntity where
  | mk (quantifier : String) (object : PObject) : PEntity
end

/-- Field accessor for `PLocation.relation`. -/
def PLocation.relation : PLocation → String
  | .mk r _ => r

/-- Field accessor for `PLocation.entity`. -/
def PLocation.entity : PLocation → PEntity
  | .mk _ e => e

/-- Field accessor for `PEntity.object`. -/
def PEntity.object : PEntity → PObject
  | .mk _ o => o

/-- `Parser.Command`: a command name with optional entity and location. -/
structure Command where
  command : String
  entity : Option PEntity
  location : Option PLocation

/-- `Interpreter.getObjectKeys`: every object-table key matching the
description's filters and existing in the world (held or stacked); a
`"floor"` form yields the synthetic key `"floor"`.  For a nested
description the source reads `form`/`size`/`color` as `undefined`, which
matches no key, so the result is empty. -/
def getObjectKeys (object : PObject) (state : WorldState) : List String :=
  match object with
  | .nested _ _ => []
  | .base form size color =>
    if form == "floor" then ["floor"]
    else state.objects.filterMap fun p =>
      if (form == p.2.form || form == "anyform")
          && (color == some p.2.color || color == none)
          && (size == some p.2.size || size == none) then
        if doesObjectExist state.holding state.stacks p.1 then some p.1 else none
      else none

/-- `Interpreter.getRequestedObjectRelations`: a located description pairs
every candidate target with every candidate location object under the
location's relation; a plain description produces `(key, "", null)` triples. -/
def getRequestedObjectRelations (object : PObject) (state : WorldState) :
    List ObjectRelations :=
  match object with
  | .nested inner loc =>
    let targetObjects := getObjectKeys inner state
    let locationObjects := getObjectKeys loc.entity.object state
    targetObjects.flatMap fun t =>
      locationObjects.map fun l => ⟨t, loc.relation, some l⟩
  | .base f s c =>
    (getObjectKeys (.base f s c) state).map fun t => ⟨t, "", none⟩

/-- The per-triple loop body of `Interpreter.getObjectRelationsThatExistsInWorld`:
dispatch on the relation name; stack-local relations are tried against every
stack in turn; an unknown relation only logs a warning and never holds. -/
def relationExistsInWorld (objectRelation : ObjectRelations) (state : WorldState) :
    Bool :=
  let loc := orNull objectRelation.locationObject
  if objectRelation.relation == "beside" then
    isBeside state.stacks objectRelation.targetObject loc
  else if objectRelation.relation == "leftof" then
    isLeftOf state.stacks objectRelation.targetObject loc
  else if objectRelation.relation == "rightof" then
    isRightOf state.stacks objectRelation.targetObject loc
  else if objectRelation.relation == "" then
    doesObjectExist state.holding state.stacks objectRelation.targetObject
  else
    state.stacks.any fun stack =>
      if objectRelation.relation == "inside" then
        isInside stack objectRelation.targetObject loc state
      else if objectRelation.relation == "ontop" then
        isOnTop stack objectRelation.targetObject loc state
      else if objectRelation.relation == "above" then
        isAbove stack objectRelation.targetObject loc state
      else if objectRelation.relation == "under" then
        isUnder stack objectRelation.targetObject loc state
      else false

/-- `Interpreter.getObjectRelationsThatExistsInWorld`: keep the triples that
hold in the world. -/
def getObjectRelationsThatExistsInWorld (objectRelations : List ObjectRelations)
    (state : WorldState) : List ObjectRelations :=
  objectRelations.filter (fun r => relationExistsInWorld r state)

/-- `Interpreter.getPossibleMoves`.  Take-like commands on a non-floor object
produce a `holding` literal; move-like commands resolve the location (one
nesting level, as in the source) and emit a positive literal for every
destination passing `isMoveValid`; with the implicit target `"itself"` the
held object is substituted, and nothing is emitted when the arm is empty.
A move-like command with a `null` location crashes in the source
(`location.entity` on `null`), modelled as an error. -/
def getPossibleMoves (command : String) (objectToMove : String)
    (location : Option PLocation) (state : WorldState) : Except String (List Literal) :=
  if objectToMove == "floor" then .ok []
  else if command == "take" || command == "grasp" || command == "pick up" then
    .ok [⟨true, "holding", [objectToMove]⟩]
  else if command == "move" || command == "put" || command == "drop" then
    match location with
    | none => .error "TypeError: cannot read a field of null"
    | some loc =>
      match loc.entity.object with
      | .base f sz c =>
        let locationObjectKeys := getObjectKeys (.base f sz c) state
        .ok (locationObjectKeys.filterMap fun locationObjectKey =>
          if isMoveValid objectToMove loc.relation locationObjectKey state then
            if objectToMove == "itself" then
              match state.holding with
              | some h => some ⟨true, loc.relation, [h, locationObjectKey]⟩
              | none => none
            else some ⟨true, loc.relation, [objectToMove, locationObjectKey]⟩
          else none)
      | .nested innerObj innerLoc =>
        let targetObjects := getObjectKeys innerObj state
        let locationObjects := getObjectKeys innerLoc.entity.object state
        let requestedRelations := targetObjects.flatMap fun t =>
          locationObjects.map fun l => ObjectRelations.mk t innerLoc.relation (some l)
        let existing := getObjectRelationsThatExistsInWorld requestedRelations state
        .ok (existing.filterMap fun r =>
          if isMoveValid objectToMove loc.relation r.targetObject state then
            if objectToMove == "itself" then
              match state.holding with
              | some h => some ⟨true, loc.relation, [h, r.targetObject]⟩
              | none => none
            else some ⟨true, loc.relation, [objectToMove, r.targetObject]⟩
          else none)
  else .ok []

/-- The literal-collecting loop of `Interpreter.interpretCommand`: for each
candidate triple, every possible move becomes its own single-literal
conjunction, in order. -/
def collectMoves (cmd : Command) (state : WorldState) :
    List ObjectRelations → Except String DNFFormula
  | [] => .ok []
  | r :: rest =>
    match getPossibleMoves cmd.command r.targetObject cmd.location state with
    | .error e => .error e
    | .ok results =>
      match collectMoves cmd state rest with
      | .error e => .error e
      | .ok tail => .ok (results.map (fun result => [result]) ++ tail)

/-- Final emptiness check of `Interpreter.interpretCommand`. -/
def finishInterpretation (r : Except String DNFFormula) : Except String DNFFormula :=
  match r with
  | .error e => .error e
  | .ok interp =>
    if interp.isEmpty then .error "No possible objects to move" else .ok interp

/-- `Interpreter.interpretCommand`: resolve the direct-object description (or
fall back to the implicit `"itself"` target when the command has none), fail
when nothing matches, then collect the possible moves. -/
def interpretCommand (cmd : Command) (state : WorldState) : Except String DNFFormula :=
  match cmd.entity with
  | some ent =>
    let requested := getRequestedObjectRelations ent.object state
    let existing := getObjectRelationsThatExistsInWorld requested state
    if existing.isEmpty then .error "No possible objects found"
    else finishInterpretation (collectMoves cmd state existing)
  | none =>
    finishInterpretation (collectMoves cmd state [⟨"itself", "", none⟩])

/-- The driver loop shared by `Interpreter.interpret` and `Planner.plan`:
run `f` on every input, collect the successes; if none succeeded, throw the
first recorded error (`errors[0]`, which is `undefined` — here `none` —
when there was no input at all). -/
def driverLoop {α E β : Type} (f : α → Except E β) (xs : List α) :
    Except (Option E) (List (α × β)) :=
  let successes := xs.filterMap fun x =>
    match f x with
    | .ok b => some (x, b)
    | .error _ => none
  if successes.isEmpty then
    .error (xs.filterMap fun x =>
      match f x with
      | .error e => some e
      | .ok _ => none).head?
  else .ok successes

/-- `Interpreter.interpret`: try `interpretCommand` on every parse. -/
def interpret (parses : List Command) (currentState : WorldState) :
    Except (Option String) (List (Command × DNFFormula)) :=
  driverLoop (fun p => interpretCommand p currentState) parses

/-- `Planner.plan`, parametric in the core `planInterpretation` function
(whose search engine, `aStarSearch`, lives outside this repository's
sources): try it on every interpretation, substituting the notice
`"That is already true!"` for an empty plan. -/
def plan {I : Type} (planInterpretation : I → Except String (List String))
    (interpretations : List I) : Except (Option String) (List (I × List String)) :=
  driverLoop (fun i =>
    match planInterpretation i with
    | .ok p => .ok (if p.isEmpty then ["That is already true!"] else p)
    | .error e => .error e) interpretations

/-- `Planner.isInterpretationInCurrentWorldstate`: evaluate one literal
against a world state by dispatching on its relation name; `holding` is
checked against `state.holding`, the stack-local relations are tried against
every stack, and an unknown relation only logs a warning and never holds.
A missing argument reads as `undefined` in the source; the `""` stand-in
gives the same outcome except where the source would compare `undefined`
with `null` (a degenerate literal shape the resolver never emits). -/
def isInterpretationInCurrentWorldstate (lit : Literal) (state : WorldState) : Bool :=
  let a0 := lit.args.getD 0 ""
  let a1 := lit.args.getD 1 ""
  if lit.relation == "beside" then isBeside state.stacks a0 a1
  else if lit.relation == "leftof" then isLeftOf state.stacks a0 a1
  else if lit.relation == "rightof" then isRightOf state.stacks a0 a1
  else if lit.relation == "holding" then state.holding == some a0
  else
    state.stacks.any fun stack =>
      if lit.relation == "inside" then isInside stack a0 a1 state
      else if lit.relation == "ontop" then isOnTop stack a0 a1 state
      else if lit.relation == "above" then isAbove stack a0 a1 state
      else if lit.relation == "under" then isUnder stack a0 a1 state
      else false

/-- The planner's goal test (the `isGoal` closure in `planInterpretation`):
for each conjunction of the formula, only its first literal
(`_interpretation[0]`) is evaluated.  An empty conjunction crashes in the
source (field access on `undefined`); it is modelled as `false`, and the
theorems below restrict to the nonempty case. -/
def isGoal (interpretation : DNFFormula) (state : WorldState) : Bool :=
  interpretation.any fun conj =>
    match conj.head? with
    | some lit => isInterpretationInCurrentWorldstate lit state
    | none => false

/-- The column under the arm, `state.stacks[state.arm]` (defaulted to `[]`;
the source crashes instead when `arm` is out of range, which the data-model
invariant `arm < |stacks|` excludes). -/
def armCol (s : WorldState) : List String := s.stacks.getD s.arm []

/-- The drop guard of `SGraph.outgoingEdges`:
`targetObject ? isMoveValid(holding,"ontop",targetObject)
|| isMoveValid(holding,"inside",targetObject) : true`,
where `targetObject` is the top of the arm's column. -/
def dropAllowed (s : WorldState) (h : String) : Bool :=
  match (armCol s).getLast? with
  | some targetObject =>
    isMoveValid h "ontop" targetObject s || isMoveValid h "inside" targetObject s
  | none => true

/-- The state built by the drop edge: push the held object onto the arm's
column and empty the hand; arm and object table unchanged. -/
def dropState (s : WorldState) (h : String) : WorldState :=
  { s with «stacks» := s.stacks.set s.arm (armCol s ++ [h]), holding := none }

/-- The state built by the pick edge: pop the top of the arm's column into
the hand; arm and object table unchanged. -/
def pickState (s : WorldState) : WorldState :=
  { s with «stacks» := s.stacks.set s.arm (armCol s).dropLast,
           holding := (armCol s).getLast? }

/-- `SGraph.outgoingEdges` (planner transition function): the arm-left,
arm-right, drop and pick edges, in the source's order, each as a
`(command, target state)` pair of cost 1. -/
def outgoingEdges (s : WorldState) : List (String × WorldState) :=
  (if 0 < s.arm then [("l", { s with arm := s.arm - 1 })] else [])
  ++ (if s.arm < s.stacks.length - 1 then [("r", { s with arm := s.arm + 1 })] else [])
  ++ (match s.holding with
      | some h => if dropAllowed s h then [("d", dropState s h)] else []
      | none => [])
  ++ (match s.holding with
      | none => if (armCol s).isEmpty then [] else [("p", pickState s)]
      | some _ => [])

/-- Inner loop of `SGraph.compareNodes` over one column: every position of
`theOther`'s column must be present and equal in `one`'s column (a missing
position reads as `undefined`, falsy, hence a mismatch); positions of
`one`'s column beyond `theOther`'s length are never examined. -/
def rowCovered (one theOther : List String) : Bool :=
  match theOther, one with
  | [], _ => true
  | _ :: _, [] => false
  | y :: ys, x :: xs => x == y && rowCovered xs ys

/-- Outer loop of `SGraph.compareNodes`: iterate over `theOther`'s columns
only.  When `one` has fewer columns the source would fault indexing into a
missing column; a required empty column is skipped (its inner loop is
empty), a required nonempty one is treated as a mismatch. -/
def stacksCovered (one theOther : List (List String)) : Bool :=
  match theOther, one with
  | [], _ => true
  | r :: rs, [] => r.isEmpty && stacksCovered [] rs
  | r :: rs, o :: os => rowCovered o r && stacksCovered os rs

/-- `SGraph.compareNodes`: 0 (equal) when holding and arm agree and every
position of `theOther`'s stacks matches in `one`'s stacks; otherwise 1. -/
def compareNodes (one theOther : WorldState) : Nat :=
  if one.holding != theOther.holding then 1
  else if one.arm != theOther.arm then 1
  else if stacksCovered one.stacks theOther.stacks then 0
  else 1

/-- Number of places a key occupies in a state: its occurrences across all
stacks plus one if it is the held object. -/
def occCount (s : WorldState) (k : String) : Nat :=
  (s.stacks.map (fun st => st.count k)).sum + (if s.holding = some k then 1 else 0)

/-- Every key of the object table occupies exactly one place. -/
def placedOnce (s : WorldState) : Prop :=
  ∀ k ∈ s.objects.map Prod.fst, occCount s k = 1

/-- One planner transition: some outgoing edge leads from `s` to `s'`. -/
def planStep (s s' : WorldState) : Prop := ∃ c, (c, s') ∈ outgoingEdges s

/-- Reachability along planner transitions. -/
def planReachable : WorldState → WorldState → Prop :=
  Relation.ReflTransGen planStep

/-! ## Concrete sample worlds, used by witnesses and counterexamples -/

/-- A small object table: a brick, a ball, a table and a box. -/
def exTable : List (String × WObject) :=
  [("a", ⟨"brick", "small", "red"⟩), ("b", ⟨"ball", "small", "blue"⟩),
   ("c", ⟨"table", "large", "green"⟩), ("bx", ⟨"box", "small", "yellow"⟩)]

/-- Sample world: brick `a` with ball `b` on it in column 0, table `c` in
column 1, box `bx` held. -/
def exState : WorldState := ⟨[["a", "b"], ["c"]], some "bx", 0, exTable⟩

/-- Same object table as `exState` but different stacks, arm and hand. -/
def exStateMoved : WorldState := ⟨[["c"], ["b", "a"]], none, 1, exTable⟩

/-- Brick `a` resting directly on box `bx`. -/
def boxState : WorldState := ⟨[["bx", "a"], []], none, 0, exTable⟩

/-- The arm holds brick `a`; nothing is stacked. -/
def heldState : WorldState := ⟨[[], []], some "a", 0, exTable⟩

/-- The arm holds brick `a` over the table `c`. -/
def dropReadyState : WorldState := ⟨[["c"]], some "a", 0, exTable⟩

/-- A fully stacked start state in which every table key occurs exactly once. -/
def startState : WorldState := ⟨[["a", "b"], ["c", "bx"]], none, 0, exTable⟩

/-- A two-literal conjunction whose first literal holds in `heldState` and
whose second does not. -/
def goalFormulaTwoLits : DNFFormula :=
  [[⟨true, "holding", ["a"]⟩, ⟨true, "holding", ["b"]⟩]]

/-- A single-literal formula that holds in `heldState`. -/
def goalFormulaSingleton : DNFFormula := [[⟨true, "holding", ["a"]⟩]]

/-- A stand-in `planInterpretation` that fails on input 0 and returns the
empty plan otherwise. -/
def planStub (n : Nat) : Except String (List String) :=
  if n == 0 then .error "no plan" else .ok []

/-- A parse of "take the ball". -/
def cmdTakeBall : Command := ⟨"take", some (.mk "the" (.base "ball" none none)), none⟩

/-- A parse requesting an object that matches nothing in `exTable`. -/
def cmdTakeSpaceship : Command :=
  ⟨"take", some (.mk "the" (.base "spaceship" none none)), none⟩

/-! ## Theorems -/

/-- `getObjectForm` reads only the object table. -/
theorem getObjectForm_congr {s₁ s₂ : WorldState} (h : s₁.objects = s₂.objects)
    (k : String) : getObjectForm k s₁ = getObjectForm k s₂ := by
  simp only [getObjectForm, h]

/-- `getObjectSize` reads only the object table. -/
theorem getObjectSize_congr {s₁ s₂ : WorldState} (h : s₁.objects = s₂.objects)
    (k : String) : getObjectSize k s₁ = getObjectSize k s₂ := by
  simp only [getObjectSize, h]

/-- Claim C9: `isMoveValid(objectToMove, relation, targetObject, state)`
depends only on the relation, the two keys, and the forms and sizes in the
state's object table: two states with the same object table give the same
result whatever their stacks, arm position or held object. -/
theorem isMoveValid_depends_only_on_objects (s₁ s₂ : WorldState)
    (h : s₁.objects = s₂.objects) (objectToMove relation targetObject : String) :
    isMoveValid objectToMove relation targetObject s₁
      = isMoveValid objectToMove relation targetObject s₂ := by
  simp only [isMoveValid, getObjectForm_congr h, getObjectSize_congr h]

/-- Witness for C9: `exState` and `exStateMoved` share `exTable` but differ
in stacks, arm and hand; `isMoveValid` agrees on them. -/
theorem isMoveValid_depends_only_on_objects_witness :
    isMoveValid "a" "ontop" "c" exState = isMoveValid "a" "ontop" "c" exStateMoved :=
  isMoveValid_depends_only_on_objects exState exStateMoved rfl "a" "ontop" "c"

/-- Claim C2: `compareNodes` answers 0 ("equal") on two nodes whose stack
contents differ — `one` has an extra object `b` on top that `theOther`
lacks, yet only `theOther`'s positions are compared — so "`compareNodes`
returns 0 iff the states have identical stack contents" fails on the code
(the asymmetric length-mismatch comparison). -/
theorem compareNodes_missed_mismatch :
    compareNodes ⟨[["a", "b"]], none, 0, []⟩ ⟨[["a"]], none, 0, []⟩ = 0 ∧
    (⟨[["a", "b"]], none, 0, []⟩ : WorldState).stacks
      ≠ (⟨[["a"]], none, 0, []⟩ : WorldState).stacks ∧
    (⟨[["a", "b"]], none, 0, []⟩ : WorldState).holding
      = (⟨[["a"]], none, 0, []⟩ : WorldState).holding ∧
    (⟨[["a", "b"]], none, 0, []⟩ : WorldState).arm
      = (⟨[["a"]], none, 0, []⟩ : WorldState).arm := by
  refine ⟨rfl, ?_, rfl, rfl⟩
  decide

/-- Claim C6: `isMoveValid(x, relation, x)` is false for every relation,
whichever earlier rule branch the object's form and size select, provided
every size in the object table is `"small"` or `"large"` (the data model's
size domain; a table entry with any other size would fall through branch 2's
inner test and hit the final `return true`). -/
theorem isMoveValid_self_false (x relation : String) (s : WorldState)
    (hsize : ∀ p ∈ s.objects, p.2.size = "small" ∨ p.2.size = "large") :
    isMoveValid x relation x s = false := by
  have hbox : getObjectForm x s = some "box" →
      getObjectSize x s = some "small" ∨ getObjectSize x s = some "large" := by
    intro hf
    unfold getObjectForm at hf
    by_cases hx : (x == "floor") = true
    · rw [if_pos hx] at hf
      exact absurd (Option.some.inj hf) (by decide)
    · rw [if_neg hx] at hf
      obtain ⟨p, hp, -⟩ := Option.map_eq_some'.mp hf
      have hmem := List.mem_of_find?_eq_some hp
      have := hsize p hmem
      unfold getObjectSize
      rw [hp]
      rcases this with h1 | h1
      · exact Or.inl (by simp [h1])
      · exact Or.inr (by simp [h1])
  unfold isMoveValid
  split
  · rfl
  · split
    · split
      · rfl
      · rename_i hcond hszcond
        exfalso
        apply hszcond
        have hformbox : getObjectForm x s = some "box" := by
          have := (Bool.and_eq_true _ _).mp hcond
          exact beq_iff_eq.mp this.2
        rcases hbox hformbox with h1 | h1
        · simp [h1]
        · simp [h1]
    · split
      · rfl
      · split
        · rfl
        · split
          · rfl
          · rename_i hne
            exact absurd (beq_self_eq_true x) hne

/-- Witness for C6: the sample table's sizes are all small or large, and the
box cannot be put inside itself. -/
theorem isMoveValid_self_false_witness : isMoveValid "bx" "inside" "bx" exState = false :=
  isMoveValid_self_false "bx" "inside" exState (by decide)

/-- When some input succeeds, `driverLoop` returns exactly the successes. -/
theorem driverLoop_ok {α E β : Type} (f : α → Except E β) (xs : List α)
    (h : ∃ x ∈ xs, ∃ b, f x = .ok b) :
    driverLoop f xs = .ok (xs.filterMap fun x =>
      match f x with
      | .ok b => some (x, b)
      | .error _ => none) := by
  unfold driverLoop
  rw [if_neg]
  intro hempty
  obtain ⟨x, hx, b, hb⟩ := h
  have hmem : (x, b) ∈ xs.filterMap fun x =>
      (match f x with
        | .ok b => some (x, b)
        | .error _ => none : Option (α × β)) := by
    refine List.mem_filterMap.mpr ⟨x, hx, ?_⟩
    rw [hb]
  rw [List.isEmpty_iff.mp hempty] at hmem
  exact absurd hmem (List.not_mem_nil _)

/-- When every input fails, `driverLoop` throws the first recorded error. -/
theorem driverLoop_error {α E β : Type} (f : α → Except E β) (xs : List α)
    (h : ∀ x ∈ xs, ∃ e, f x = .error e) :
    driverLoop f xs = .error ((xs.filterMap fun x =>
      match f x with
      | .error e => some e
      | .ok _ => none).head?) := by
  unfold driverLoop
  rw [if_pos]
  apply List.isEmpty_iff.mpr
  apply List.filterMap_eq_nil_iff.mpr
  intro x hx
  obtain ⟨e, he⟩ := h x hx
  rw [he]

/-- Claim C7: `plan` (and likewise `interpret`) attempts every supplied
interpretation independently.  If at least one interpretation succeeds, all
successful results are returned, in order, and no error surfaces; if every
interpretation fails, the error thrown is the first recorded one (later
errors are discarded). -/
theorem plan_interpret_error_policy {I : Type}
    (planInterpretation : I → Except String (List String)) (xs : List I)
    (parses : List Command) (st : WorldState) :
    ((∃ x ∈ xs, ∃ p, planInterpretation x = .ok p) →
      plan planInterpretation xs = .ok (xs.filterMap fun x =>
        match planInterpretation x with
        | .ok p => some (x, if p.isEmpty then ["That is already true!"] else p)
        | .error _ => none))
    ∧ ((∀ x ∈ xs, ∃ e, planInterpretation x = .error e) →
      plan planInterpretation xs = .error ((xs.filterMap fun x =>
        match planInterpretation x with
        | .error e => some e
        | .ok _ => none).head?))
    ∧ ((∃ p ∈ parses, ∃ F, interpretCommand p st = .ok F) →
      interpret parses st = .ok (parses.filterMap fun p =>
        match interpretCommand p st with
        | .ok F => some (p, F)
        | .error _ => none))
    ∧ ((∀ p ∈ parses, ∃ e, interpretCommand p st = .error e) →
      interpret parses st = .error ((parses.filterMap fun p =>
        match interpretCommand p st with
        | .error e => some e
        | .ok _ => none).head?)) := by
  refine ⟨?_, ?_, ?_, ?_⟩
  · intro h
    unfold plan
    rw [driverLoop_ok]
    · congr 1
      apply List.filterMap_congr
      intro x _
      cases hx : planInterpretation x <;> simp [hx]
    · obtain ⟨x, hx, p, hp⟩ := h
      exact ⟨x, hx, _, by rw [hp]⟩
  · intro h
    unfold plan
    rw [driverLoop_error]
    · congr 2
      apply List.filterMap_congr
      intro x _
      cases hx : planInterpretation x <;> simp [hx]
    · intro x hx
      obtain ⟨e, he⟩ := h x hx
      exact ⟨e, by rw [he]⟩
  · intro h
    unfold interpret
    rw [driverLoop_ok _ _ h]
    congr 1
    apply List.filterMap_congr
    intro p _
    cases hp : interpretCommand p st <;> simp [hp]
  · intro h
    unfold interpret
    rw [driverLoop_error _ _ h]
    congr 2
    apply List.filterMap_congr
    intro p _
    cases hp : interpretCommand p st <;> simp [hp]

/-- Witness for C7, covering both directions: with `planStub` failing on 0
and succeeding (with the empty plan, hence the notice) on 1, `plan` returns
just the success; on inputs that all fail it rethrows the first error; and
`interpret` on a parse matching no object throws that parse's error. -/
theorem plan_interpret_error_policy_witness :
    plan planStub [0, 1] = .ok [(1, ["That is already true!"])]
    ∧ plan planStub [0] = .error (some "no plan")
    ∧ interpret [cmdTakeSpaceship] exState = .error (some "No possible objects found") := by
  refine ⟨?_, ?_, ?_⟩
  · have h := (plan_interpret_error_policy planStub [0, 1] [] exState).1
      ⟨1, by decide, [], rfl⟩
    exact h.trans (by rfl)
  · have h := (plan_interpret_error_policy planStub [0] [] exState).2.1
      (by
        intro x hx
        rw [List.mem_singleton] at hx
        subst hx
        exact ⟨"no plan", rfl⟩)
    exact h.trans (by rfl)
  · have h := (plan_interpret_error_policy planStub [] [cmdTakeSpaceship] exState).2.2.2
      (by
        intro p hp
        rw [List.mem_singleton] at hp
        subst hp
        exact ⟨"No possible objects found", rfl⟩)
    exact h.trans (by rfl)

/-- Membership characterization of the planner's edge list: an edge is one
of arm-left, arm-right, drop or pick, each under its guard. -/
theorem mem_outgoingEdges_iff {s : WorldState} {e : String × WorldState} :
    e ∈ outgoingEdges s ↔
      (0 < s.arm ∧ e = ("l", { s with arm := s.arm - 1 }))
      ∨ (s.arm < s.stacks.length - 1 ∧ e = ("r", { s with arm := s.arm + 1 }))
      ∨ (∃ h, s.holding = some h ∧ dropAllowed s h = true ∧ e = ("d", dropState s h))
      ∨ (s.holding = none ∧ ¬(armCol s).isEmpty = true ∧ e = ("p", pickState s)) := by
  cases hh : s.holding with
  | none =>
    by_cases h1 : 0 < s.arm <;> by_cases h2 : s.arm < s.stacks.length - 1
      <;> by_cases h3 : (armCol s).isEmpty = true
      <;> simp [outgoingEdges, hh, h1, h2, h3]
  | some h =>
    by_cases h1 : 0 < s.arm <;> by_cases h2 : s.arm < s.stacks.length - 1
      <;> by_cases h4 : dropAllowed s h = true
      <;> simp [outgoingEdges, hh, h1, h2, h4]

/-- The drop guard unfolded: the column is empty, or its top passes
`isMoveValid` for `ontop` or for `inside`. -/
theorem dropAllowed_iff {s : WorldState} {h : String} :
    dropAllowed s h = true ↔
      armCol s = [] ∨ ∃ t, (armCol s).getLast? = some t ∧
        (isMoveValid h "ontop" t s = true ∨ isMoveValid h "inside" t s = true) := by
  unfold dropAllowed
  cases hl : (armCol s).getLast? with
  | none => simp [List.getLast?_eq_none_iff.mp hl]
  | some t =>
    have hne : armCol s ≠ [] := by
      intro he
      rw [he] at hl
      cases hl
    simp [hl, hne, Bool.or_eq_true]

/-- Claim C5: a drop edge is generated from a node iff `holding` is
non-empty and either the arm's column is empty or its top object passes
`isMoveValid(holding, "ontop", top)` or `isMoveValid(holding, "inside",
top)`; the resulting state pushes the held object onto the arm's column,
empties the hand, and leaves the arm, the object table and every other
column unchanged.  (The arm-range hypothesis is the data-model invariant
under which the embedding of the source's column indexing is faithful.) -/
theorem drop_edge_characterization (s : WorldState) (_harm : s.arm < s.stacks.length) :
    ((∃ s', ("d", s') ∈ outgoingEdges s) ↔
      ∃ h, s.holding = some h ∧
        (armCol s = [] ∨ ∃ t, (armCol s).getLast? = some t ∧
          (isMoveValid h "ontop" t s = true ∨ isMoveValid h "inside" t s = true)))
    ∧ (∀ s', ("d", s') ∈ outgoingEdges s → ∃ h, s.holding = some h ∧
        s'.stacks = s.stacks.set s.arm (armCol s ++ [h]) ∧
        s'.holding = none ∧ s'.arm = s.arm ∧ s'.objects = s.objects ∧
        ∀ j, j ≠ s.arm → s'.stacks[j]? = s.stacks[j]?) := by
  constructor
  · constructor
    · rintro ⟨s', hs'⟩
      rcases mem_outgoingEdges_iff.mp hs' with ⟨-, he⟩ | ⟨-, he⟩ | ⟨h, hh, hda, he⟩ | ⟨-, -, he⟩
      · exact absurd (show ("d" : String) = "l" from congrArg Prod.fst he) (by decide)
      · exact absurd (show ("d" : String) = "r" from congrArg Prod.fst he) (by decide)
      · exact ⟨h, hh, dropAllowed_iff.mp hda⟩
      · exact absurd (show ("d" : String) = "p" from congrArg Prod.fst he) (by decide)
    · rintro ⟨h, hh, hcond⟩
      refine ⟨dropState s h, ?_⟩
      exact mem_outgoingEdges_iff.mpr
        (Or.inr (Or.inr (Or.inl ⟨h, hh, dropAllowed_iff.mpr hcond, rfl⟩)))
  · intro s' hs'
    rcases mem_outgoingEdges_iff.mp hs' with ⟨-, he⟩ | ⟨-, he⟩ | ⟨h, hh, hda, he⟩ | ⟨-, -, he⟩
    · exact absurd (show ("d" : String) = "l" from congrArg Prod.fst he) (by decide)
    · exact absurd (show ("d" : String) = "r" from congrArg Prod.fst he) (by decide)
    · have hs'' : s' = dropState s h := congrArg Prod.snd he
      subst hs''
      refine ⟨h, hh, rfl, rfl, rfl, rfl, ?_⟩
      intro j hj
      show (s.stacks.set s.arm (armCol s ++ [h]))[j]? = s.stacks[j]?
      exact List.getElem?_set_ne (Ne.symm hj)
    · exact absurd (show ("d" : String) = "p" from congrArg Prod.fst he) (by decide)

/-- Witness for C5: with a brick held over the table column, a drop edge is
generated. -/
theorem drop_edge_characterization_witness :
    ∃ s', ("d", s') ∈ outgoingEdges dropReadyState :=
  (drop_edge_characterization dropReadyState (by decide)).1.mpr
    ⟨"a", rfl, Or.inr ⟨"c", rfl, Or.inl (by decide)⟩⟩

/-- Every literal produced by `getPossibleMoves` has positive polarity: the
source only ever pushes `{polarity: true, ...}` records. -/
theorem getPossibleMoves_polarity {command objectToMove : String}
    {location : Option PLocation} {state : WorldState} {lits : List Literal}
    (h : getPossibleMoves command objectToMove location state = .ok lits) :
    ∀ l ∈ lits, l.polarity = true := by
  unfold getPossibleMoves at h
  split at h
  · cases h
    intro l hl
    exact absurd hl (List.not_mem_nil l)
  · split at h
    · cases h
      intro l hl
      rw [List.mem_singleton] at hl
      subst hl
      rfl
    · split at h
      · match location with
        | none => cases h
        | some loc =>
          match hobj : loc.entity.object with
          | .base f sz c =>
            simp only [hobj] at h
            cases h
            intro l hl
            obtain ⟨k, -, hk⟩ := List.mem_filterMap.mp hl
            split at hk
            · split at hk
              · split at hk
                · cases hk
                  rfl
                · cases hk
              · cases hk
                rfl
            · cases hk
          | .nested innerObj innerLoc =>
            simp only [hobj] at h
            cases h
            intro l hl
            obtain ⟨r, -, hr⟩ := List.mem_filterMap.mp hl
            split at hr
            · split at hr
              · split at hr
                · cases hr
                  rfl
                · cases hr
              · cases hr
                rfl
            · cases hr
      · cases h
        intro l hl
        exact absurd hl (List.not_mem_nil l)

/-- Every conjunction produced by `collectMoves` is a single positive
literal: the loop pushes `[result]` for each possible move. -/
theorem collectMoves_singletons {cmd : Command} {state : WorldState}
    {rels : List ObjectRelations} {F : DNFFormula}
    (h : collectMoves cmd state rels = .ok F) :
    ∀ conj ∈ F, ∃ lit, conj = [lit] ∧ lit.polarity = true := by
  induction rels generalizing F with
  | nil =>
    cases h
    intro conj hc
    exact absurd hc (List.not_mem_nil conj)
  | cons r rest ih =>
    unfold collectMoves at h
    cases hg : getPossibleMoves cmd.command r.targetObject cmd.location state with
    | error e => rw [hg] at h; cases h
    | ok results =>
      rw [hg] at h
      cases hc : collectMoves cmd state rest with
      | error e => rw [hc] at h; cases h
      | ok tail =>
        rw [hc] at h
        cases h
        intro conj hconj
        rcases List.mem_append.mp hconj with hl | hr
        · obtain ⟨lit, hmem, hconj'⟩ := List.mem_map.mp hl
          exact ⟨lit, hconj'.symm, getPossibleMoves_polarity hg lit hmem⟩
        · exact ih hc conj hr

/-- A successful `finishInterpretation` passes its argument through. -/
theorem finishInterpretation_ok {r : Except String DNFFormula} {F : DNFFormula}
    (h : finishInterpretation r = .ok F) : r = .ok F := by
  unfold finishInterpretation at h
  match r with
  | .error e => cases h
  | .ok interp =>
    dsimp at h
    split at h
    · cases h
    · cases h
      rfl

/-- Claim C8: every `DNFFormula` returned by `interpretCommand` consists
exclusively of single-literal conjunctions, and every literal in it has
positive polarity — the resolver never emits a negated literal nor a
conjunction of more than one literal. -/
theorem interpretCommand_singletons (cmd : Command) (state : WorldState)
    (F : DNFFormula) (h : interpretCommand cmd state = .ok F) :
    ∀ conj ∈ F, ∃ lit, conj = [lit] ∧ lit.polarity = true := by
  unfold interpretCommand at h
  match hent : cmd.entity with
  | some ent =>
    rw [hent] at h
    dsimp at h
    split at h
    · cases h
    · exact collectMoves_singletons (finishInterpretation_ok h)
  | none =>
    rw [hent] at h
    exact collectMoves_singletons (finishInterpretation_ok h)

/-- Witness for C8: interpreting "take the ball" in the sample world
succeeds, and its one conjunction is the single positive literal
`holding(b)`. -/
theorem interpretCommand_singletons_witness :
    ∃ lit, [(⟨true, "holding", ["b"]⟩ : Literal)] = [lit] ∧ lit.polarity = true :=
  interpretCommand_singletons cmdTakeBall exState
    [[⟨true, "holding", ["b"]⟩]] (by rfl)
    [⟨true, "holding", ["b"]⟩] (by simp)

/-- Claim C1, counterexample: on a conjunction with two literals whose first
holds and whose second does not, `isGoal` answers true although not all of
the conjunction's literals are true — the goal test consults only
`_interpretation[0]`, so "some conjunction has **all** of its literals true"
does not characterize it. -/
theorem isGoal_checks_only_first_literal :
    isGoal goalFormulaTwoLits heldState = true ∧
    ¬ ∃ conj ∈ goalFormulaTwoLits, ∀ lit ∈ conj,
        isInterpretationInCurrentWorldstate lit heldState = true := by
  constructor
  · rfl
  · decide

/-- Claim C1, amended: for formulas all of whose conjunctions hold exactly
one literal (which is what the resolver produces), the goal test returns
true iff some conjunction has all of its literals true in the state, each
literal evaluated by relation name against the World Model predicates
(`holding` against `state.holding`, spatial relations against the stacks). -/
theorem isGoal_iff_of_singletons (F : DNFFormula) (s : WorldState)
    (hsing : ∀ conj ∈ F, conj.length = 1) :
    isGoal F s = true ↔
      ∃ conj ∈ F, ∀ lit ∈ conj, isInterpretationInCurrentWorldstate lit s = true := by
  unfold isGoal
  rw [List.any_eq_true]
  constructor
  · rintro ⟨conj, hc, hb⟩
    have hlen := hsing conj hc
    refine ⟨conj, hc, ?_⟩
    cases conj with
    | nil =>
      intro l hl
      exact absurd hl (List.not_mem_nil l)
    | cons lit rest =>
      cases rest with
      | nil =>
        intro l hl
        rw [List.mem_singleton] at hl
        subst hl
        simpa using hb
      | cons l2 rest2 => exact absurd hlen (by simp)
  · rintro ⟨conj, hc, hall⟩
    have hlen := hsing conj hc
    refine ⟨conj, hc, ?_⟩
    cases conj with
    | nil => simp at hlen
    | cons lit rest =>
      cases rest with
      | nil => simpa using hall lit (by simp)
      | cons l2 rest2 => simp at hlen

/-- Witness for the amended C1 on a concrete single-literal formula. -/
theorem isGoal_iff_of_singletons_witness :
    isGoal goalFormulaSingleton heldState = true ↔
      ∃ conj ∈ goalFormulaSingleton, ∀ lit ∈ conj,
        isInterpretationInCurrentWorldstate lit heldState = true :=
  isGoal_iff_of_singletons goalFormulaSingleton heldState (by decide)

/-- Replacing the `i`-th column changes the per-key occurrence sum by the
difference between the new and the old column's counts, stated additively. -/
theorem sum_count_set (k : String) :
    ∀ (L : List (List String)) (i : Nat) (new : List String), i < L.length →
      ((L.set i new).map (fun st => st.count k)).sum + (L.getD i []).count k
        = (L.map (fun st => st.count k)).sum + new.count k := by
  intro L
  induction L with
  | nil =>
    intro i new h
    simp at h
  | cons st rest ih =>
    intro i new h
    cases i with
    | zero =>
      simp [List.getD]
      omega
    | succ i =>
      have := ih i new (by simpa using h)
      simp only [List.set, List.map, List.sum_cons, List.getD_cons_succ]
      omega

/-- The count of a key in a nonempty list splits into its count in the list
without its last element plus its occurrence as the last element. -/
theorem count_eq_dropLast_add_getLast (k : String) (l : List String) (h : l ≠ []) :
    l.count k = l.dropLast.count k
      + (if l.getLast? = some k then 1 else 0) := by
  conv_lhs => rw [← List.dropLast_append_getLast h]
  rw [List.count_append, List.getLast?_eq_getLast_of_ne_nil h]
  congr 1
  by_cases hk : l.getLast h = k
  · simp [hk, List.count_cons]
  · simp [List.count_cons, hk, Ne.symm hk]

/-- One planner transition preserves every key's occurrence count, the
object table, and the arm-range invariant. -/
theorem planStep_preserves {s s' : WorldState} (harm : s.arm < s.stacks.length)
    (hstep : planStep s s') :
    (∀ k, occCount s' k = occCount s k) ∧ s'.objects = s.objects
      ∧ s'.arm < s'.stacks.length := by
  obtain ⟨c, hc⟩ := hstep
  have harmcol : armCol s = s.stacks.getD s.arm [] := rfl
  rcases mem_outgoingEdges_iff.mp hc with ⟨h1, he⟩ | ⟨h2, he⟩ | ⟨h, hh, -, he⟩ | ⟨hh, hne, he⟩
  · have hs' : s' = { s with arm := s.arm - 1 } := congrArg Prod.snd he
    subst hs'
    exact ⟨fun k => rfl, rfl, by simpa using Nat.lt_of_le_of_lt (Nat.sub_le _ _) harm⟩
  · have hs' : s' = { s with arm := s.arm + 1 } := congrArg Prod.snd he
    subst hs'
    refine ⟨fun k => rfl, rfl, ?_⟩
    show s.arm + 1 < s.stacks.length
    omega
  · have hs' : s' = dropState s h := congrArg Prod.snd he
    subst hs'
    refine ⟨fun k => ?_, rfl, by simpa [dropState] using harm⟩
    have hsum := sum_count_set k s.stacks s.arm (armCol s ++ [h]) harm
    rw [← harmcol] at hsum
    have hcnt : (armCol s ++ [h]).count k = (armCol s).count k
        + (if h = k then 1 else 0) := by
      rw [List.count_append, List.count_singleton]
      by_cases hk : h = k
      · simp [hk]
      · simp [hk, Ne.symm hk]
    show (((s.stacks.set s.arm (armCol s ++ [h])).map (fun st => st.count k)).sum
        + if (none : Option String) = some k then 1 else 0)
      = (s.stacks.map (fun st => st.count k)).sum + (if s.holding = some k then 1 else 0)
    rw [hh]
    simp only [if_neg (by simp : ¬(none : Option String) = some k)]
    have hif : ((if (some h : Option String) = some k then 1 else 0) : Nat)
        = (if h = k then 1 else 0) := by
      by_cases hk : h = k <;> simp [hk]
    rw [hif]
    omega
  · have hs' : s' = pickState s := congrArg Prod.snd he
    subst hs'
    have hnonnil : armCol s ≠ [] := fun hnil => hne (by simp [hnil])
    refine ⟨fun k => ?_, rfl, by simpa [pickState] using harm⟩
    have hsum := sum_count_set k s.stacks s.arm (armCol s).dropLast harm
    rw [← harmcol] at hsum
    have hcnt := count_eq_dropLast_add_getLast k (armCol s) hnonnil
    show (((s.stacks.set s.arm (armCol s).dropLast).map (fun st => st.count k)).sum
        + if (armCol s).getLast? = some k then 1 else 0)
      = (s.stacks.map (fun st => st.count k)).sum + (if s.holding = some k then 1 else 0)
    rw [hh]
    simp only [if_neg (by simp : ¬(none : Option String) = some k)]
    omega

/-- Claim C4: if the start state places every object-key in exactly one
place (held xor occurring exactly once in exactly one stack) and satisfies
the data-model arm-range invariant, then every state the planner's
transition function can reach from it — in particular every successor
produced by `outgoingEdges` — again places every object-key in exactly one
place; the search never produces a state violating this. -/
theorem search_preserves_placement (s₀ s : WorldState)
    (hinv : placedOnce s₀) (harm : s₀.arm < s₀.stacks.length)
    (hreach : planReachable s₀ s) : placedOnce s := by
  suffices h : (∀ k, occCount s k = occCount s₀ k) ∧ s.objects = s₀.objects
      ∧ s.arm < s.stacks.length by
    intro k hk
    rw [h.1 k]
    refine hinv k ?_
    rw [← h.2.1]
    exact hk
  induction hreach with
  | refl => exact ⟨fun k => rfl, rfl, harm⟩
  | tail hr hstep ih =>
    obtain ⟨hocc, hobj, harm'⟩ := ih
    obtain ⟨ho2, hb2, ha2⟩ := planStep_preserves harm' hstep
    exact ⟨fun k => (ho2 k).trans (hocc k), hb2.trans hobj, ha2⟩

/-- Witness for C4: from the sample start state (each key placed once), the
pick transition's successor again places each key once. -/
theorem search_preserves_placement_witness : placedOnce (pickState startState) :=
  search_preserves_placement startState (pickState startState)
    (by unfold placedOnce; decide) (by decide)
    (Relation.ReflTransGen.single ⟨"p", by decide⟩)

/-- An element found at an index is a member of the list. -/
theorem mem_of_getElem?_eq_some {α : Type} {l : List α} {i : Nat} {a : α}
    (h : l[i]? = some a) : a ∈ l := by
  obtain ⟨hlt, hv⟩ := List.getElem?_eq_some_iff.mp h
  exact hv ▸ List.getElem_mem hlt

/-- With the flag already set, `isOnTopAux` looks only at the next element. -/
theorem isOnTopAux_found (stack : List String) (above below : String) (idx : Nat) :
    isOnTopAux stack above below idx true = true ↔ stack[0]? = some above := by
  cases stack with
  | nil => simp [isOnTopAux]
  | cons x rest => simp [isOnTopAux]

/-- Away from index 0, the floor clause of `isOnTopAux` can never fire, and
without `"floor"` in the stack the flag is never set either. -/
theorem isOnTopAux_floor_pos (above : String) :
    ∀ (stack : List String) (idx : Nat), idx ≠ 0 → "floor" ∉ stack →
      isOnTopAux stack above "floor" idx false = false := by
  intro stack
  induction stack with
  | nil => intro idx _ _; rfl
  | cons x rest ih =>
    intro idx hidx hfl
    have hxfl : (x == "floor") = false := by
      have : x ≠ "floor" := fun he => hfl (by simp [he])
      simpa using this
    have h1 : ("floor" == "floor" && x == above && idx == 0) = false := by
      have : (idx == 0) = false := by simpa using hidx
      simp [this]
    show (if ("floor" == "floor" && x == above && idx == 0) = true then true
          else isOnTopAux rest above "floor" (idx + 1) (x == "floor")) = false
    rw [h1, if_neg (by simp), hxfl]
    exact ih (idx + 1) (by omega) (fun hm => hfl (List.mem_cons_of_mem x hm))

/-- For `below = "floor"` and a stack without `"floor"`, `isOnTopAux` from
index 0 answers exactly "is `above` the bottom element". -/
theorem isOnTopAux_floor (stack : List String) (above : String)
    (hfl : "floor" ∉ stack) :
    isOnTopAux stack above "floor" 0 false = true ↔ stack[0]? = some above := by
  cases stack with
  | nil => simp [isOnTopAux]
  | cons x rest =>
    have hxfl : (x == "floor") = false := by
      have : x ≠ "floor" := fun he => hfl (by simp [he])
      simpa using this
    show (if ("floor" == "floor" && x == above && 0 == 0) = true then true
          else isOnTopAux rest above "floor" (0 + 1) (x == "floor")) = true ↔ _
    by_cases hx : x = above
    · simp [hx]
    · have hcond : ("floor" == "floor" && x == above && 0 == 0) = false := by
        simp [hx]
      rw [hcond, if_neg (by simp), hxfl]
      rw [isOnTopAux_floor_pos above rest (0 + 1) (by omega)
        (fun hm => hfl (List.mem_cons_of_mem x hm))]
      simp [hx]

/-- For a non-floor `below` and a duplicate-free stack, `isOnTopAux` from a
fresh flag answers exactly "`above` immediately follows `below`". -/
theorem isOnTopAux_nonfloor (above below : String) (hb : below ≠ "floor") :
    ∀ (stack : List String), stack.Nodup → ∀ idx : Nat,
      (isOnTopAux stack above below idx false = true
        ↔ ∃ i, stack[i]? = some below ∧ stack[i + 1]? = some above) := by
  intro stack
  induction stack with
  | nil => intro _ idx; simp [isOnTopAux]
  | cons x rest ih =>
    intro hnd idx
    have hcond : (below == "floor" && x == above && idx == 0) = false := by
      simp [hb]
    show (if (below == "floor" && x == above && idx == 0) = true then true
          else isOnTopAux rest above below (idx + 1) (x == below)) = true ↔ _
    rw [hcond, if_neg (by simp)]
    by_cases hx : x = below
    · have hxb : (x == below) = true := by simpa using hx
      rw [hxb, isOnTopAux_found]
      constructor
      · intro hr
        exact ⟨0, by simp [hx], by simpa using hr⟩
      · rintro ⟨i, hi, hi1⟩
        cases i with
        | zero => simpa using hi1
        | succ j =>
          exfalso
          have hmem : below ∈ rest := mem_of_getElem?_eq_some (by simpa using hi)
          exact (List.nodup_cons.mp hnd).1 (hx ▸ hmem)
    · have hxb : (x == below) = false := by simpa using hx
      rw [hxb, ih (List.nodup_cons.mp hnd).2 (idx + 1)]
      constructor
      · rintro ⟨i, hi, hi1⟩
        exact ⟨i + 1, by simpa using hi, by simpa using hi1⟩
      · rintro ⟨i, hi, hi1⟩
        cases i with
        | zero => exact absurd (by simpa using hi : x = below) hx
        | succ j =>
          exact ⟨j, by simpa using hi, by simpa using hi1⟩

/-- Claim C3, counterexample: `isOnTop` holds of an object resting directly
on a box — nothing in the source consults the form of `objectBelow`, so the
claim's "never returns true when `below`'s form is box" fails. -/
theorem isOnTop_holds_on_box :
    isOnTop ["bx", "a"] "a" "bx" boxState = true
      ∧ getObjectForm "bx" boxState = some "box" := ⟨rfl, rfl⟩

/-- Claim C3, amended: over a duplicate-free stack not containing the
synthetic key `"floor"`, in a world whose object table assigns no object the
form `"floor"`, `isOnTop(stack, above, below)` returns true iff `above`
immediately follows `below` in the stack's bottom-to-top order, or `below`
is `"floor"` and `above` is at index 0 of the stack.  (The claim's further
box clause does not hold of the code.) -/
theorem isOnTop_characterization (stack : List String) (above below : String)
    (state : WorldState) (hnd : stack.Nodup) (hfl : "floor" ∉ stack)
    (hforms : ∀ p ∈ state.objects, p.2.form ≠ "floor") :
    isOnTop stack above below state = true ↔
      ((∃ i, stack[i]? = some below ∧ stack[i + 1]? = some above)
        ∨ (below = "floor" ∧ stack[0]? = some above)) := by
  unfold isOnTop
  by_cases hform : (getObjectForm above state == some "floor") = true
  · rw [if_pos hform]
    have habove : above = "floor" := by
      have hf : getObjectForm above state = some "floor" := eq_of_beq hform
      unfold getObjectForm at hf
      by_cases hfloor : (above == "floor") = true
      · exact eq_of_beq hfloor
      · rw [if_neg hfloor] at hf
        obtain ⟨p, hp, hpf⟩ := Option.map_eq_some'.mp hf
        exact absurd hpf (hforms p (List.mem_of_find?_eq_some hp))
    subst habove
    constructor
    · intro h
      cases h
    · rintro (⟨i, -, hi1⟩ | ⟨-, h0⟩)
      · exact absurd (mem_of_getElem?_eq_some hi1) hfl
      · exact absurd (mem_of_getElem?_eq_some h0) hfl
  · rw [if_neg hform]
    by_cases hb : below = "floor"
    · subst hb
      rw [isOnTopAux_floor stack above hfl]
      constructor
      · intro h
        exact Or.inr ⟨rfl, h⟩
      · rintro (⟨i, hi, -⟩ | ⟨-, h0⟩)
        · exact absurd (mem_of_getElem?_eq_some hi) hfl
        · exact h0
    · rw [isOnTopAux_nonfloor above below hb stack hnd 0]
      constructor
      · exact Or.inl
      · rintro (h | ⟨hbf, -⟩)
        · exact h
        · exact absurd hbf hb

/-- Witness for the amended C3: in the sample world, `b` is on top of `a`,
and the characterization instantiates there. -/
theorem isOnTop_characterization_witness :
    isOnTop ["a", "b"] "b" "a" exState = true ↔
      ((∃ i, (["a", "b"] : List String)[i]? = some "a"
          ∧ (["a", "b"] : List String)[i + 1]? = some "b")
        ∨ ("a" = "floor" ∧ (["a", "b"] : List String)[0]? = some "b")) :=
  isOnTop_characterization ["a", "b"] "b" "a" exState (by decide) (by decide) (by decide)

/-- One unfolding step of the scanning loop. -/
theorem stackNrPairScan_cons (a b : String) (u : List String)
    (rest : List (List String)) (i : Int) (acc : Int × Int) :
    stackNrPairScan (u :: rest) a b i acc
      = stackNrPairScan rest a b (i + 1)
          (match u.find? (fun o => o == a || o == b) with
            | some o => if o == a then (i, acc.2) else (acc.1, i)
            | none => acc) := rfl

/-- Scanning a stack in which neither key is found leaves the registers. -/
theorem stackNrPairScan_cons_none {a b : String} {u : List String}
    (rest : List (List String)) (i : Int) (acc : Int × Int)
    (h : u.find? (fun o => o == a || o == b) = none) :
    stackNrPairScan (u :: rest) a b i acc = stackNrPairScan rest a b (i + 1) acc := by
  rw [stackNrPairScan_cons, h]

/-- Scanning a stack whose first hit is `o` updates the matching register. -/
theorem stackNrPairScan_cons_some {a b o : String} {u : List String}
    (rest : List (List String)) (i : Int) (acc : Int × Int)
    (h : u.find? (fun o => o == a || o == b) = some o) :
    stackNrPairScan (u :: rest) a b i acc
      = stackNrPairScan rest a b (i + 1)
          (if o == a then (i, acc.2) else (acc.1, i)) := by
  rw [stackNrPairScan_cons, h]

/-- If the first object occurs in no stack, its register is never written. -/
theorem scan_fst_unchanged (a b : String) :
    ∀ (L : List (List String)) (i : Int) (acc : Int × Int),
      (∀ st ∈ L, a ∉ st) →
      (stackNrPairScan L a b i acc).1 = acc.1 := by
  intro L
  induction L with
  | nil => intro i acc _; rfl
  | cons u rest ih =>
    intro i acc h
    have hrest : ∀ st ∈ rest, a ∉ st := fun st hst => h st (List.mem_cons_of_mem u hst)
    cases hf : u.find? (fun o => o == a || o == b) with
    | none =>
      rw [stackNrPairScan_cons_none rest i acc hf]
      exact ih (i + 1) acc hrest
    | some o =>
      have hoa : (o == a) = false := by
        have : o ≠ a := by
          intro he
          exact h u (List.mem_cons_self u rest) (he ▸ List.mem_of_find?_eq_some hf)
        simpa using this
      rw [stackNrPairScan_cons_some rest i acc hf, hoa]
      exact (ih (i + 1) (acc.1, i) hrest).trans rfl

/-- If the second object occurs in no stack, its register is never written. -/
theorem scan_snd_unchanged (a b : String) :
    ∀ (L : List (List String)) (i : Int) (acc : Int × Int),
      (∀ st ∈ L, b ∉ st) →
      (stackNrPairScan L a b i acc).2 = acc.2 := by
  intro L
  induction L with
  | nil => intro i acc _; rfl
  | cons u rest ih =>
    intro i acc h
    have hrest : ∀ st ∈ rest, b ∉ st := fun st hst => h st (List.mem_cons_of_mem u hst)
    cases hf : u.find? (fun o => o == a || o == b) with
    | none =>
      rw [stackNrPairScan_cons_none rest i acc hf]
      exact ih (i + 1) acc hrest
    | some o =>
      by_cases hoa : (o == a) = true
      · rw [stackNrPairScan_cons_some rest i acc hf, hoa]
        exact (ih (i + 1) (i, acc.2) hrest).trans rfl
      · exfalso
        have hpred := List.find?_some hf
        have hob : (o == b) = true := by
          rcases (Bool.or_eq_true _ _).mp hpred with h' | h'
          · exact absurd h' hoa
          · exact h'
        exact h u (List.mem_cons_self u rest)
          ((eq_of_beq hob) ▸ List.mem_of_find?_eq_some hf)

/-- The scan registers are `-10` or a visited index (nonnegative when the
scan starts at a nonnegative index). -/
theorem scan_range (a b : String) :
    ∀ (L : List (List String)) (i : Int) (acc : Int × Int), 0 ≤ i →
      (acc.1 = -10 ∨ 0 ≤ acc.1) → (acc.2 = -10 ∨ 0 ≤ acc.2) →
      ((stackNrPairScan L a b i acc).1 = -10 ∨ 0 ≤ (stackNrPairScan L a b i acc).1)
        ∧ ((stackNrPairScan L a b i acc).2 = -10 ∨ 0 ≤ (stackNrPairScan L a b i acc).2) := by
  intro L
  induction L with
  | nil => intro i acc _ h1 h2; exact ⟨h1, h2⟩
  | cons u rest ih =>
    intro i acc hi h1 h2
    cases hf : u.find? (fun o => o == a || o == b) with
    | none =>
      rw [stackNrPairScan_cons_none rest i acc hf]
      exact ih (i + 1) acc (by omega) h1 h2
    | some o =>
      by_cases hoa : (o == a) = true
      · rw [stackNrPairScan_cons_some rest i acc hf, hoa]
        exact ih (i + 1) (i, acc.2) (by omega) (Or.inr hi) h2
      · rw [stackNrPairScan_cons_some rest i acc hf, Bool.eq_false_iff.mpr hoa]
        exact ih (i + 1) (acc.1, i) (by omega) h1 (Or.inr hi)

/-- If the scan changed the first register, some stack's first hit among the
two keys was the first key. -/
theorem scan_fst_changed (a b : String) :
    ∀ (L : List (List String)) (i : Int) (acc : Int × Int),
      (stackNrPairScan L a b i acc).1 ≠ acc.1 →
      ∃ st ∈ L, st.find? (fun o => o == a || o == b) = some a := by
  intro L
  induction L with
  | nil => intro i acc h; exact absurd rfl h
  | cons u rest ih =>
    intro i acc h
    cases hf : u.find? (fun o => o == a || o == b) with
    | none =>
      rw [stackNrPairScan_cons_none rest i acc hf] at h
      obtain ⟨st, hst, hfind⟩ := ih (i + 1) acc h
      exact ⟨st, List.mem_cons_of_mem u hst, hfind⟩
    | some o =>
      by_cases hoa : (o == a) = true
      · exact ⟨u, List.mem_cons_self u rest, by rw [hf, eq_of_beq hoa]⟩
      · rw [stackNrPairScan_cons_some rest i acc hf, Bool.eq_false_iff.mpr hoa] at h
        obtain ⟨st, hst, hfind⟩ := ih (i + 1) (acc.1, i) h
        exact ⟨st, List.mem_cons_of_mem u hst, hfind⟩

/-- If the scan changed the second register, some stack's first hit among
the two keys was the second key (which therefore differs from the first). -/
theorem scan_snd_changed (a b : String) :
    ∀ (L : List (List String)) (i : Int) (acc : Int × Int),
      (stackNrPairScan L a b i acc).2 ≠ acc.2 →
      ∃ st ∈ L, st.find? (fun o => o == a || o == b) = some b ∧ b ≠ a := by
  intro L
  induction L with
  | nil => intro i acc h; exact absurd rfl h
  | cons u rest ih =>
    intro i acc h
    cases hf : u.find? (fun o => o == a || o == b) with
    | none =>
      rw [stackNrPairScan_cons_none rest i acc hf] at h
      obtain ⟨st, hst, hfind⟩ := ih (i + 1) acc h
      exact ⟨st, List.mem_cons_of_mem u hst, hfind⟩
    | some o =>
      by_cases hoa : (o == a) = true
      · rw [stackNrPairScan_cons_some rest i acc hf, hoa] at h
        obtain ⟨st, hst, hfind⟩ := ih (i + 1) (i, acc.2) h
        exact ⟨st, List.mem_cons_of_mem u hst, hfind⟩
      · have hob : o = b := by
          have hpred := List.find?_some hf
          rcases (Bool.or_eq_true _ _).mp hpred with h' | h'
          · exact absurd h' hoa
          · exact eq_of_beq h'
        refine ⟨u, List.mem_cons_self u rest, by rw [hf, hob], ?_⟩
        intro hba
        exact hoa (by rw [hob, hba]; exact beq_self_eq_true a)

/-- In a duplicate-free world, a key lies in at most one stack (as a value). -/
theorem stacks_mem_unique {x : String} :
    ∀ (L : List (List String)), L.flatten.Nodup →
      ∀ {s t : List String}, s ∈ L → t ∈ L → x ∈ s → x ∈ t → s = t := by
  intro L
  induction L with
  | nil =>
    intro _ s t hs _ _ _
    exact absurd hs (List.not_mem_nil s)
  | cons u rest ih =>
    intro hnd s t hs ht hxs hxt
    rw [List.flatten_cons, List.nodup_append] at hnd
    obtain ⟨-, hrest, hdisj⟩ := hnd
    rcases List.mem_cons.mp hs with rfl | hs' <;> rcases List.mem_cons.mp ht with rfl | ht'
    · rfl
    · exact absurd (List.mem_flatten.mpr ⟨t, ht', hxt⟩) (fun hm => hdisj hxs hm)
    · exact absurd (List.mem_flatten.mpr ⟨s, hs', hxs⟩) (fun hm => hdisj hxt hm)
    · exact ih hrest hs' ht' hxs hxt

/-- Claim C10: `isBeside(stacks, a, b)` returns false whenever either key
occurs in no stack (for example a held or absent object), and — in a world
whose stacks hold each key at most once, the data-model invariant — also
whenever `a` and `b` occur in the same stack. -/
theorem isBeside_false_cases («stacks» : List (List String)) (a b : String) :
    (((∀ st ∈ «stacks», a ∉ st) ∨ (∀ st ∈ «stacks», b ∉ st)) →
        isBeside «stacks» a b = false)
    ∧ (( «stacks».flatten.Nodup → (∃ st ∈ «stacks», a ∈ st ∧ b ∈ st) →
        isBeside «stacks» a b = false)) := by
  have hrange := scan_range a b «stacks» 0 (-10, -10) (by omega)
    (Or.inl rfl) (Or.inl rfl)
  constructor
  · rintro (ha | hb)
    · have h1 : (stackNrPairScan «stacks» a b 0 (-10, -10)).1 = -10 :=
        scan_fst_unchanged a b «stacks» 0 (-10, -10) ha
      have h2 := hrange.2
      simp only [isBeside, beq_eq_false_iff_ne, ne_eq]
      omega
    · have h2 : (stackNrPairScan «stacks» a b 0 (-10, -10)).2 = -10 :=
        scan_snd_unchanged a b «stacks» 0 (-10, -10) hb
      have h1 := hrange.1
      simp only [isBeside, beq_eq_false_iff_ne, ne_eq]
      omega
  · intro hnd hex
    obtain ⟨st, hstm, hast, hbst⟩ := hex
    cases hval : isBeside «stacks» a b with
    | false => rfl
    | true =>
      exfalso
      have habs : ((stackNrPairScan «stacks» a b 0 (-10, -10)).2
          - (stackNrPairScan «stacks» a b 0 (-10, -10)).1).natAbs = 1 := by
        have := hval
        simp only [isBeside, beq_iff_eq] at this
        exact this
      have h1 : (stackNrPairScan «stacks» a b 0 (-10, -10)).1 ≠ -10 := by
        rcases hrange.1 with hr | hr <;> rcases hrange.2 with hr2 | hr2 <;> omega
      have h2 : (stackNrPairScan «stacks» a b 0 (-10, -10)).2 ≠ -10 := by
        rcases hrange.1 with hr | hr <;> rcases hrange.2 with hr2 | hr2 <;> omega
      obtain ⟨st1, hst1, hfind1⟩ := scan_fst_changed a b «stacks» 0 (-10, -10) h1
      obtain ⟨st2, hst2, hfind2, hba⟩ := scan_snd_changed a b «stacks» 0 (-10, -10) h2
      have he1 : st1 = st :=
        stacks_mem_unique «stacks» hnd hst1 hstm (List.mem_of_find?_eq_some hfind1) hast
      have he2 : st2 = st :=
        stacks_mem_unique «stacks» hnd hst2 hstm (List.mem_of_find?_eq_some hfind2) hbst
      rw [he1] at hfind1
      rw [he2] at hfind2
      rw [hfind1] at hfind2
      exact hba (Option.some.inj hfind2).symm

/-- Witness for C10: `bx` is held in `exState`, hence in no stack, so it is
beside nothing; and `a` and `b` share column 0, so they are not beside each
other. -/
theorem isBeside_false_cases_witness :
    isBeside exState.stacks "bx" "c" = false
      ∧ isBeside exState.stacks "a" "b" = false :=
  ⟨(isBeside_false_cases exState.stacks "bx" "c").1 (Or.inl (by decide)),
   (isBeside_false_cases exState.stacks "a" "b").2 (by decide)
     ⟨["a", "b"], by decide, by decide, by decide⟩⟩

end Shrdlite
